import Mathlib

/-!
Shallow embedding of `pyfrost/network_http/sa.py`: the `post_request`
transport wrapper and the `SA` coordinator (`request_nonces`,
`request_signature`).  Python dictionaries that flow through the module are
modelled by structures whose fields are `Option`-valued (a `none` field
models an absent key); Python exceptions are modelled by `Except PyExc`.
External collaborators (aiohttp network behaviour, `NodesInfo.lookup_node`,
the `pyfrost` crypto provider, `uuid.uuid4`) are parameters of the
embedding, as the spec treats them as external interfaces.
-/

namespace PyFrostSA

/-- A Python exception escaping one of the modelled functions. -/
inductive PyExc where
  /-- `KeyError` from a bracket access `d[key]` on a dict missing `key`. -/
  | keyError (key : String)
  /-- `IndexError` from `l[0]` on an empty list. -/
  | indexError
  /-- An exception raised by an external call (kind and message),
  e.g. by `session.post` while establishing the connection. -/
  | raised (kind msg : String)
deriving DecidableEq, Repr

/-- The `signature_data` block of a signer's `/v1/sign` response.
`aggregated_public_nonce` is `none` when that key is absent; `rest` stands
for the remaining (opaque) content of the block. -/
structure SigData where
  aggregated_public_nonce : Option Nat
  rest : Nat
deriving DecidableEq, Repr

instance : Inhabited SigData := ⟨⟨none, 0⟩⟩

/-- A decoded JSON response body as the coordinator sees it: the keys the
module ever probes (`hash`, `signature_data`, `status`, `error`), each
`none` when absent, plus an opaque `extra` component standing for any
further content.  Both peer success payloads and the transport's sentinel
values have this shape. -/
structure SResp where
  hash : Option String
  signature_data : Option SigData
  status : Option String
  error : Option String
  extra : Nat
deriving DecidableEq, Repr

instance : Inhabited SResp := ⟨⟨none, none, none, none, 0⟩⟩

/-- Python truthiness of an optional string (`None` and `''` are falsy). -/
def truthyStr : Option String → Bool
  | none => false
  | some s => s ≠ ""

/-- The sentinel returned by `post_request` when `asyncio.TimeoutError`
is caught while decoding the body. -/
def timeoutSentinel : SResp :=
  { hash := none, signature_data := none, status := some "TIMEOUT",
    error := some "Communication timed out", extra := 0 }

/-- The sentinel returned by `post_request` when any other exception is
caught while decoding the body. -/
def errorSentinel (kind msg : String) : SResp :=
  { hash := none, signature_data := none, status := some "ERROR",
    error := some ("An exception occurred: " ++ kind ++ ": " ++ msg), extra := 0 }

/-- Network-level outcome of one `session.post(url, json=data,
timeout=timeout)` call together with the decoding of its body.  The split
mirrors the structure of `post_request`: the `try` block in the source
covers only `await response.json()`, so an exception arising while the
request itself is being performed (connection refused, DNS failure,
connect timeout, ...) arises *outside* that block. -/
inductive WireOutcome where
  /-- The request succeeded and the body decoded to `body`. -/
  | ok (body : SResp)
  /-- `asyncio.TimeoutError` raised inside `await response.json()`. -/
  | decodeTimeout
  /-- Any other exception raised inside `await response.json()`. -/
  | decodeError (kind msg : String)
  /-- An exception raised by `session.post` / entering its context,
  before the `try` block is reached. -/
  | requestRaise (kind msg : String)
deriving DecidableEq, Repr

/-- Embedding of `post_request(url, data, timeout)`.  `wire` gives the
network-level outcome of the POST for the given url, body and timeout.
Exceptions of the decode phase are converted to sentinel values by the
`except` clauses; an exception of the request phase propagates, because
the `try` block only encloses `await response.json()`. -/
def post_request (wire : String → Nat → Nat → WireOutcome)
    (url : String) (data : Nat) (timeout : Nat) : Except PyExc SResp :=
  match wire url data timeout with
  | .ok body => .ok body
  | .decodeTimeout => .ok timeoutSentinel
  | .decodeError kind msg => .ok (errorSentinel kind msg)
  | .requestRaise kind msg => .error (.raised kind msg)

/-- Python `d[k] = v` on an insertion-ordered dict as an association
list: an existing key keeps its position and gets the new value, a fresh
key is appended. -/
def dictInsert {α : Type} (d : List (Nat × α)) (k : Nat) (v : α) : List (Nat × α) :=
  if d.any (fun p => p.1 = k) then
    d.map (fun p => if p.1 = k then (k, v) else p)
  else
    d ++ [(k, v)]

/-- Python `dict(zip(ks, vs))`: pairs inserted left to right into an
initially empty insertion-ordered dict. -/
def dictZip {α : Type} (ks : List Nat) (vs : List α) : List (Nat × α) :=
  (ks.zip vs).foldl (fun d kv => dictInsert d kv.1 kv.2) []

/-- The key sequence of a Python dict built by inserting `ks` in order:
each key at its first occurrence. -/
def pyKeys : List Nat → List Nat
  | [] => []
  | k :: ks => k :: (pyKeys ks).filter (fun x => x ≠ k)

/-- The `dkg_key` argument of `request_signature`: a dict with keys
`public_key` and `party`. -/
structure DKGKey where
  public_key : Nat
  party : List Nat
deriving DecidableEq, Repr

/-- The shared `/v1/sign` request body built by `request_signature`:
`request_data = .. request_id, dkg_public_key, nonces_list, data ..`. -/
structure SignPayload where
  request_id : String
  dkg_public_key : Nat
  nonces_list : Nat
  data : Nat
deriving DecidableEq, Repr

/-- The dict returned by `pyfrost.aggregate_signatures`: a `message_hash`
(bytes, modelled as a list of byte values) plus opaque remaining content. -/
structure AggSign where
  message_hash : List Nat
  sig : Nat
deriving DecidableEq, Repr

/-- The external `pyfrost` crypto provider, as used by the module.
Points, codes, public keys, nonce lists are all opaque (`Nat`). -/
structure Crypto where
  aggregate_nonce : Option String → Nat → Nat → Nat
  pub_to_code : Nat → Nat
  code_to_pub : Nat → Nat
  aggregate_signatures : Option String → List SigData → Nat → Nat → AggSign
  verify_group_signature : AggSign → Bool

/-- The four shapes of value `request_signature` can return:
the guard's dict, the forensic FAILED dict carrying the full per-peer
mapping, the mutated `aggregated_sign` dict on verification success, and
the `aggregated_sign` dict with `result = FAILED` on verification
failure. -/
inductive SAResult where
  | failedNone
  | failedWith (signatures : List (Nat × SResp))
  | success (message_hash : String) (sig : Nat)
      (signature_data : List SResp) (request_id : String)
  | failedAgg (aggregated_sign : AggSign)
deriving DecidableEq, Repr

/-- The `result` discriminant carried by each of the four return shapes. -/
def SAResult.result : SAResult → String
  | .failedNone => "FAILED"
  | .failedWith _ => "FAILED"
  | .success _ _ _ _ => "SUCCESSFUL"
  | .failedAgg _ => "FAILED"

/-- One invocation of the crypto provider, with its arguments. -/
inductive CryptoCall where
  | aggNonce (message : Option String) (nonces_list public_key : Nat)
  | aggSigs (message : Option String) (shares : List SigData)
      (nonce public_key : Nat)
  | verify (sign : AggSign)
deriving DecidableEq, Repr

/-- Whether a crypto call is the nonce recomputation `aggregate_nonce`. -/
def CryptoCall.isAggNonce : CryptoCall → Bool
  | .aggNonce _ _ _ => true
  | _ => false

/-- Whether a crypto call is the share aggregation `aggregate_signatures`. -/
def CryptoCall.isAggSigs : CryptoCall → Bool
  | .aggSigs _ _ _ _ => true
  | _ => false

/-- Whether a crypto call is `verify_group_signature`. -/
def CryptoCall.isVerify : CryptoCall → Bool
  | .verify _ => true
  | _ => false

/-- The `SA` object's persistent state: the `nodes_info` directory
(modelled as a total resolution function id ↦ (host, port), i.e. every
queried id is assumed known to the directory) and the default timeout. -/
structure SA where
  lookup_node : Nat → String × Nat
  default_timeout : Nat

/-- The value each peer's `post_request` call resolves to, keyed by the
node id whose resolved address the POST was sent to — one function per
endpoint.  This conditions the coordinator model on the transport
returning a value (the transport's own exception path is modelled
separately in `post_request`). -/
structure Net where
  sign_response : Nat → SResp
  nonce_response : Nat → SResp

/-- Hex digit character, lowercase, as produced by Python `bytes.hex()`. -/
def hexDigit (n : Nat) : Char :=
  if n < 10 then Char.ofNat (48 + n) else Char.ofNat (87 + n)

/-- Hex encoding of one byte: two lowercase hex digits. -/
def byteHex (b : Nat) : String :=
  String.mk [hexDigit (b % 256 / 16), hexDigit (b % 16)]

/-- Python `bytes.hex()`: concatenated per-byte hex encodings. -/
def bytesHex (bs : List Nat) : String :=
  String.join (bs.map byteHex)

/-- Outcome of `request_nonces`: its return value plus the observable
directory lookups and transport calls (url, request body) it issued. -/
structure NoncesOutcome where
  nonces_response : List (Nat × SResp)
  lookups : List Nat
  posts : List (String × Nat)
deriving Repr

/-- The url built for node `i` and path `m`:
`f'http://.host.:.port.' + call_method`. -/
def urlOf (sa : SA) (m : String) (i : Nat) : String :=
  "http://" ++ (sa.lookup_node i).1 ++ ":" ++ toString (sa.lookup_node i).2 ++ m

/-- Embedding of `SA.request_nonces(party, number_of_nonces)`: resolve
each member, POST the shared `.number_of_nonces.` body to each, gather
all responses, and return `dict(zip(party, responses))`. -/
def request_nonces (sa : SA) (net : Net) (party : List Nat)
    (number_of_nonces : Nat := 10) : NoncesOutcome :=
  let node_info := party.map sa.lookup_node
  let urls := node_info.map (fun n =>
    "http://" ++ n.1 ++ ":" ++ toString n.2 ++ "/v1/generate-nonces")
  let responses := party.map net.nonce_response
  { nonces_response := dictZip party responses
    lookups := party
    posts := urls.map (fun u => (u, number_of_nonces)) }

/-- State of the extraction loop of `request_signature` (the local
variables `sample_result`, `signs`, `aggregated_public_nonces`,
`str_message`). -/
structure ExtractState where
  sample_result : List SResp
  signs : List SigData
  aggregated_public_nonces : List Nat
  str_message : Option String
deriving DecidableEq, Repr

/-- One iteration of the extraction loop, for one response `data`:
`_hash = data.get('hash')`, `_signature_data = data.get('signature_data')`,
`_aggregated_public_nonce = data.get('signature_data', ..).get('aggregated_public_nonce')`,
then the three truthiness-guarded updates.  Python truthiness: a missing
or empty-string hash is falsy, a present `signature_data` dict is truthy,
a missing nonce or the integer 0 is falsy. -/
def extractStep (s : ExtractState) (data : SResp) : ExtractState :=
  let s1 :=
    match data.hash with
    | some h =>
      if h ≠ "" && s.str_message.isNone then
        { s with str_message := some h,
                 sample_result := s.sample_result ++ [data] }
      else s
    | none => s
  let s2 :=
    match data.signature_data with
    | some sd => { s1 with signs := s1.signs ++ [sd] }
    | none => s1
  match data.signature_data.bind (fun sd => sd.aggregated_public_nonce) with
  | some n =>
    if n ≠ 0 then
      { s2 with aggregated_public_nonces := s2.aggregated_public_nonces ++ [n] }
    else s2
  | none => s2

/-- The extraction loop from a given state over the remaining responses. -/
def extractFrom (s : ExtractState) : List SResp → ExtractState
  | [] => s
  | d :: ds => extractFrom (extractStep s d) ds

/-- The whole extraction loop `for data in signatures.values(): ...`
starting from empty locals. -/
def extract (ds : List SResp) : ExtractState :=
  extractFrom { sample_result := [], signs := [],
                aggregated_public_nonces := [], str_message := none } ds

/-- The nonce a response reports:
`data['signature_data']['aggregated_public_nonce']` as an optional value. -/
def reportOf (d : SResp) : Option Nat :=
  d.signature_data.bind (fun sd => sd.aggregated_public_nonce)

/-- A response with its `status` set to `'MALICIOUS'`. -/
def setMal (d : SResp) : SResp :=
  { d with status := some "MALICIOUS" }

/-- The flagging loop inside the consistency branch:
`for data in signatures.values(): if data['signature_data']['aggregated_public_nonce'] != aggregated_public_nonce: data['status'] = 'MALICIOUS'; response['result'] = 'FAILED'`.
Bracket accesses raise `KeyError` when the key is absent; the Boolean
records whether any entry was flagged (i.e. whether `response['result']`
was set to FAILED in this loop). -/
def flagLoop (code : Nat) : List (Nat × SResp) →
    Except PyExc (List (Nat × SResp) × Bool)
  | [] => .ok ([], false)
  | (k, d) :: rest =>
    match d.signature_data with
    | none => .error (.keyError "signature_data")
    | some sd =>
      match sd.aggregated_public_nonce with
      | none => .error (.keyError "aggregated_public_nonce")
      | some n =>
        match flagLoop code rest with
        | .error e => .error e
        | .ok (rest2, f) =>
          if n ≠ code then .ok ((k, setMal d) :: rest2, true)
          else .ok ((k, d) :: rest2, f)

/-- The self-report loop:
`for data in signatures.values(): if data['status'] == 'MALICIOUS': response['result'] = 'FAILED'; break`.
Returns whether a malicious status was found before the break;
`data['status']` on a response without a `status` key raises `KeyError`. -/
def statusScan : List SResp → Except PyExc Bool
  | [] => .ok false
  | d :: ds =>
    match d.status with
    | none => .error (.keyError "status")
    | some s => if s = "MALICIOUS" then .ok true else statusScan ds

/-- Output of the consistency branch: the (possibly mutated) signatures
dict together with whether any entry was flagged, or the raised
exception; plus the crypto calls the branch issued. -/
structure ConsistencyOut where
  updated : Except PyExc (List (Nat × SResp) × Bool)
  calls : List CryptoCall
deriving Repr

/-- The consistency check of `request_signature`:
`if not len(set(aggregated_public_nonces)) == 1:` recompute the
aggregated public nonce via `pyfrost.aggregate_nonce` + `pub_to_code`
and run the flagging loop; otherwise leave everything untouched. -/
def consistencyPhase (crypto : Crypto) (str_message : Option String)
    (nonces_list public_key : Nat) (signatures : List (Nat × SResp))
    (apns : List Nat) : ConsistencyOut :=
  if apns.dedup.length = 1 then
    { updated := .ok (signatures, false), calls := [] }
  else
    let point := crypto.aggregate_nonce str_message nonces_list public_key
    let code := crypto.pub_to_code point
    { updated := flagLoop code signatures
      calls := [.aggNonce str_message nonces_list public_key] }

/-- Outcome of `request_signature`: its return value (or the exception it
raises) plus the observable directory lookups, transport calls and
crypto-provider calls it issued. -/
structure SignOutcome where
  result : Except PyExc SAResult
  lookups : List Nat
  posts : List (String × SignPayload)
  cryptoCalls : List CryptoCall
deriving Repr

/-- The `signatures = dict(zip(sign_party, responses))` mapping built by
`request_signature`. -/
def signaturesOf (net : Net) (sign_party : List Nat) : List (Nat × SResp) :=
  dictZip sign_party (sign_party.map net.sign_response)

/-- Embedding of `SA.request_signature(dkg_key, nonces_list, sa_data,
sign_party)`.  `request_id` is the value drawn from `str(uuid.uuid4())`
for this call (the generator is external).  Faithful to the source order:
subset guard, request construction, fan-out, extraction loop, consistency
branch, self-report loop, forensic FAILED return, aggregation,
verification, result shaping. -/
def request_signature (sa : SA) (net : Net) (crypto : Crypto)
    (dkg_key : DKGKey) (nonces_list sa_data : Nat) (sign_party : List Nat)
    (request_id : String) : SignOutcome :=
  if sign_party.all (fun x => dkg_key.party.contains x) = false then
    { result := .ok .failedNone, lookups := [], posts := [], cryptoCalls := [] }
  else
    let request_data : SignPayload :=
      { request_id := request_id, dkg_public_key := dkg_key.public_key,
        nonces_list := nonces_list, data := sa_data }
    let node_info := sign_party.map sa.lookup_node
    let urls := node_info.map (fun n =>
      "http://" ++ n.1 ++ ":" ++ toString n.2 ++ "/v1/sign")
    let signatures := signaturesOf net sign_party
    let posts := urls.map (fun u => (u, request_data))
    let mk : Except PyExc SAResult → List CryptoCall → SignOutcome :=
      fun r cc =>
        { result := r, lookups := sign_party, posts := posts, cryptoCalls := cc }
    let ex := extract (signatures.map Prod.snd)
    let cp := consistencyPhase crypto ex.str_message nonces_list
      dkg_key.public_key signatures ex.aggregated_public_nonces
    match cp.updated with
    | .error e => mk (.error e) cp.calls
    | .ok (sigs2, flagged) =>
      match statusScan (sigs2.map Prod.snd) with
      | .error e => mk (.error e) cp.calls
      | .ok selfMal =>
        if flagged || selfMal then
          mk (.ok (.failedWith sigs2)) cp.calls
        else
          match ex.aggregated_public_nonces with
          | [] => mk (.error .indexError) cp.calls
          | apn0 :: _ =>
            let nonce_pt := crypto.code_to_pub apn0
            let agg := crypto.aggregate_signatures ex.str_message ex.signs
              nonce_pt dkg_key.public_key
            let calls := cp.calls ++
              [.aggSigs ex.str_message ex.signs nonce_pt dkg_key.public_key,
               .verify agg]
            if crypto.verify_group_signature agg then
              mk (.ok (.success (bytesHex agg.message_hash) agg.sig
                ex.sample_result request_id)) calls
            else
              mk (.ok (.failedAgg agg)) calls

/-- The contribution of one response to `aggregated_public_nonces`: its
reported nonce when present and truthy. -/
def apnOf (d : SResp) : Option Nat :=
  match reportOf d with
  | some n => if n ≠ 0 then some n else none
  | none => none

/-! ### Concrete fixtures for witnesses and counterexamples -/

/-- A concrete node directory. -/
def saFix : SA :=
  { lookup_node := fun i => ("node" ++ toString i, 8000 + i)
    default_timeout := 200 }

/-- A concrete crypto provider: the recomputed aggregated nonce always
has code 7, aggregation yields a fixed signature dict, verification
succeeds. -/
def cryptoFix : Crypto :=
  { aggregate_nonce := fun _ _ _ => 7
    pub_to_code := id
    code_to_pub := id
    aggregate_signatures := fun _ _ _ _ => { message_hash := [171], sig := 3 }
    verify_group_signature := fun _ => true }

/-- A well-shaped signer response reporting aggregated public nonce `n`. -/
def okResp (n : Nat) : SResp :=
  { hash := some "aa"
    signature_data := some { aggregated_public_nonce := some n, rest := 0 }
    status := some "OK", error := none, extra := 0 }

/-- A network where every peer's `post_request` resolves to the TIMEOUT
sentinel. -/
def netTimeout : Net :=
  { sign_response := fun _ => timeoutSentinel
    nonce_response := fun _ => timeoutSentinel }

/-- A network where both peers report the agreed (recomputed) nonce 7. -/
def netAgree : Net :=
  { sign_response := fun _ => okResp 7
    nonce_response := fun _ => timeoutSentinel }

/-- A well-shaped response that self-reports status MALICIOUS. -/
def malResp (n : Nat) : SResp :=
  { okResp n with status := some "MALICIOUS" }

/-- A network where peer 2 self-reports MALICIOUS while nonces agree. -/
def netSelfMal : Net :=
  { sign_response := fun i => if i = 2 then malResp 7 else okResp 7
    nonce_response := fun _ => timeoutSentinel }

/-- A network with a single forging signer: every peer reports nonce 5,
while `cryptoFix` would recompute nonce code 7. -/
def netForged : Net :=
  { sign_response := fun _ => okResp 5
    nonce_response := fun _ => timeoutSentinel }

/-- A network where signer 2 forges nonce 5 and signer 1 reports the
recomputed value 7. -/
def netOneForged : Net :=
  { sign_response := fun i => if i = 2 then okResp 5 else okResp 7
    nonce_response := fun _ => timeoutSentinel }

/-! ### Helper lemmas about the dict model -/

theorem dictInsert_fresh {α : Type} (d : List (Nat × α)) (k : Nat) (v : α)
    (h : ∀ p ∈ d, p.1 ≠ k) : dictInsert d k v = d ++ [(k, v)] := by
  unfold dictInsert
  rw [if_neg]
  simp only [List.any_eq_true, decide_eq_true_eq, not_exists, not_and]
  exact h

theorem dictZip_go {α : Type} (ks : List Nat) (vs : List α)
    (d : List (Nat × α)) (hn : ks.Nodup) (hd : ∀ p ∈ d, p.1 ∉ ks) :
    (ks.zip vs).foldl (fun acc kv => dictInsert acc kv.1 kv.2) d =
      d ++ ks.zip vs := by
  induction ks generalizing vs d with
  | nil => simp
  | cons k ks ih =>
    cases vs with
    | nil => simp
    | cons v vs =>
      simp only [List.zip_cons_cons, List.foldl_cons]
      have hfresh : ∀ p ∈ d, p.1 ≠ k := by
        intro p hp
        have := hd p hp
        simp only [List.mem_cons, not_or] at this
        exact this.1
      rw [dictInsert_fresh d k v hfresh]
      have hn' : ks.Nodup := (List.nodup_cons.mp hn).2
      have hknot : k ∉ ks := (List.nodup_cons.mp hn).1
      have hd' : ∀ p ∈ d ++ [(k, v)], p.1 ∉ ks := by
        intro p hp
        rcases List.mem_append.mp hp with h1 | h1
        · have := hd p h1
          simp only [List.mem_cons, not_or] at this
          exact this.2
        · simp only [List.mem_singleton] at h1
          subst h1
          exact hknot
      rw [ih vs (d ++ [(k, v)]) hn' hd']
      simp

theorem dictZip_nodup {α : Type} (ks : List Nat) (vs : List α)
    (hn : ks.Nodup) : dictZip ks vs = ks.zip vs := by
  unfold dictZip
  rw [dictZip_go ks vs [] hn (by simp)]
  simp

theorem pyKeys_sublist (ks : List Nat) : List.Sublist (pyKeys ks) ks := by
  induction ks with
  | nil => simp [pyKeys]
  | cons k ks ih =>
    exact ((List.filter_sublist _).trans ih).cons₂ k

theorem pyKeys_mem (ks : List Nat) (x : Nat) : x ∈ pyKeys ks ↔ x ∈ ks := by
  induction ks with
  | nil => simp [pyKeys]
  | cons k ks ih =>
    by_cases hx : x = k
    · subst hx
      simp [pyKeys]
    · simp [pyKeys, List.mem_filter, hx, ih]

theorem pyKeys_nodup (ks : List Nat) : (pyKeys ks).Nodup := by
  induction ks with
  | nil => simp [pyKeys]
  | cons k ks ih =>
    refine List.nodup_cons.mpr ⟨?_, ih.filter _⟩
    intro hk
    have := (List.mem_filter.mp hk).2
    simp at this

theorem dictInsert_keys_mem {α : Type} (d : List (Nat × α)) (k : Nat) (v : α)
    (h : k ∈ d.map Prod.fst) :
    (dictInsert d k v).map Prod.fst = d.map Prod.fst := by
  obtain ⟨p, hp, hpk⟩ := List.mem_map.mp h
  unfold dictInsert
  rw [if_pos]
  · rw [List.map_map]
    refine List.map_congr_left ?_
    intro q hq
    by_cases hqk : q.1 = k
    · simp [Function.comp, hqk]
    · simp [Function.comp, hqk]
  · exact List.any_eq_true.mpr ⟨p, hp, by simp [hpk]⟩

theorem dictInsert_keys_not_mem {α : Type} (d : List (Nat × α)) (k : Nat)
    (v : α) (h : k ∉ d.map Prod.fst) :
    (dictInsert d k v).map Prod.fst = d.map Prod.fst ++ [k] := by
  unfold dictInsert
  rw [if_neg]
  · simp
  · simp only [List.any_eq_true, decide_eq_true_eq, not_exists, not_and]
    intro p hp hpk
    exact h (List.mem_map.mpr ⟨p, hp, hpk⟩)

theorem dictZip_go_keys {α : Type} (ks : List Nat) (vs : List α)
    (d : List (Nat × α)) (hlen : vs.length = ks.length) :
    (((ks.zip vs).foldl (fun acc kv => dictInsert acc kv.1 kv.2) d).map
        Prod.fst) =
      d.map Prod.fst ++
        (pyKeys ks).filter (fun x => x ∉ d.map Prod.fst) := by
  induction ks generalizing vs d with
  | nil => simp [pyKeys]
  | cons k ks ih =>
    cases vs with
    | nil => simp at hlen
    | cons v vs =>
      have hlen' : vs.length = ks.length := by simpa using hlen
      simp only [List.zip_cons_cons, List.foldl_cons, pyKeys,
        List.filter_cons]
      by_cases hk : k ∈ d.map Prod.fst
      · rw [ih vs (dictInsert d k v) hlen', dictInsert_keys_mem d k v hk]
        have hdk : (decide (k ∉ d.map Prod.fst)) = false := by simp [hk]
        rw [hdk]
        simp only [Bool.false_eq_true, if_false, List.filter_filter]
        congr 1
        refine List.filter_congr ?_
        intro x hx
        by_cases hxd : x ∈ d.map Prod.fst
        · simp [hxd]
        · have hxk : x ≠ k := fun hxk => hxd (hxk ▸ hk)
          simp [hxd, hxk]
      · rw [ih vs (dictInsert d k v) hlen', dictInsert_keys_not_mem d k v hk]
        have hdk : (decide (k ∉ d.map Prod.fst)) = true := by simp [hk]
        rw [hdk]
        simp only [if_true, List.filter_filter, List.append_assoc,
          List.singleton_append]
        congr 2
        refine List.filter_congr ?_
        intro x hx
        by_cases hxk : x = k
        · subst hxk
          simp
        · simp [hxk]

theorem dictZip_keys {α : Type} (ks : List Nat) (vs : List α)
    (hlen : vs.length = ks.length) :
    (dictZip ks vs).map Prod.fst = pyKeys ks := by
  unfold dictZip
  rw [dictZip_go_keys ks vs [] hlen]
  simp

theorem zip_map_snd {α : Type} (ks : List Nat) (f : Nat → α) :
    (ks.zip (ks.map f)).map Prod.snd = ks.map f := by
  induction ks with
  | nil => simp
  | cons k ks ih => simp [ih]

theorem zip_map_fst {α : Type} (ks : List Nat) (f : Nat → α) :
    (ks.zip (ks.map f)).map Prod.fst = ks := by
  induction ks with
  | nil => simp
  | cons k ks ih => simp [ih]

theorem map_zip_self {α : Type} (ks : List Nat) (f : Nat → SResp)
    (F : Nat × SResp → α) :
    (ks.zip (ks.map f)).map F = ks.map (fun i => F (i, f i)) := by
  induction ks with
  | nil => simp
  | cons k ks ih => simp [ih]

theorem dedup_length_ne_one {l : List Nat} {a b : Nat}
    (ha : a ∈ l) (hb : b ∈ l) (hab : a ≠ b) : l.dedup.length ≠ 1 := by
  intro h
  obtain ⟨c, hc⟩ := List.length_eq_one.mp h
  have ha' : a ∈ l.dedup := List.mem_dedup.mpr ha
  have hb' : b ∈ l.dedup := List.mem_dedup.mpr hb
  rw [hc] at ha' hb'
  simp only [List.mem_singleton] at ha' hb'
  exact hab (ha'.trans hb'.symm)

theorem dedup_one_ne_nil {l : List Nat} (h : l.dedup.length = 1) :
    l ≠ [] := by
  intro hl
  subst hl
  simp at h

/-! ### Characterization of the extraction loop -/

theorem extractStep_apns (s : ExtractState) (d : SResp) :
    (extractStep s d).aggregated_public_nonces =
      s.aggregated_public_nonces ++ (apnOf d).toList := by
  unfold extractStep apnOf reportOf
  cases d.hash <;> cases d.signature_data <;>
    simp only [Option.some_bind, Option.none_bind] <;>
    (repeat' split) <;> simp_all

theorem extractStep_signs (s : ExtractState) (d : SResp) :
    (extractStep s d).signs = s.signs ++ d.signature_data.toList := by
  unfold extractStep
  cases d.hash <;> cases d.signature_data <;>
    simp only [Option.some_bind, Option.none_bind] <;>
    (repeat' split) <;> simp_all

theorem extractStep_msg_some (s : ExtractState) (d : SResp) (m : String)
    (hm : s.str_message = some m) :
    (extractStep s d).str_message = some m ∧
      (extractStep s d).sample_result = s.sample_result := by
  unfold extractStep
  cases d.hash <;> cases d.signature_data <;>
    simp only [Option.some_bind, Option.none_bind] <;>
    (repeat' split) <;> simp_all

theorem extractStep_msg_none (s : ExtractState) (d : SResp)
    (hm : s.str_message = none) :
    (extractStep s d).str_message = (if truthyStr d.hash then d.hash else none) ∧
      (extractStep s d).sample_result =
        s.sample_result ++ (if truthyStr d.hash then [d] else []) := by
  unfold extractStep truthyStr
  cases d.hash <;> cases d.signature_data <;>
    simp only [Option.some_bind, Option.none_bind] <;>
    (repeat' split) <;> simp_all

theorem extractFrom_apns (ds : List SResp) (s : ExtractState) :
    (extractFrom s ds).aggregated_public_nonces =
      s.aggregated_public_nonces ++ ds.filterMap apnOf := by
  induction ds generalizing s with
  | nil => simp [extractFrom]
  | cons d ds ih =>
    simp only [extractFrom, List.filterMap_cons]
    rw [ih, extractStep_apns]
    cases apnOf d <;> simp

theorem extractFrom_signs (ds : List SResp) (s : ExtractState) :
    (extractFrom s ds).signs = s.signs ++ ds.filterMap (fun d => d.signature_data) := by
  induction ds generalizing s with
  | nil => simp [extractFrom]
  | cons d ds ih =>
    simp only [extractFrom, List.filterMap_cons]
    rw [ih, extractStep_signs]
    cases d.signature_data <;> simp

theorem extractFrom_msg_some (ds : List SResp) (s : ExtractState) (m : String)
    (hm : s.str_message = some m) :
    (extractFrom s ds).str_message = some m ∧
      (extractFrom s ds).sample_result = s.sample_result := by
  induction ds generalizing s with
  | nil => simp [extractFrom, hm]
  | cons d ds ih =>
    simp only [extractFrom]
    obtain ⟨h1, h2⟩ := extractStep_msg_some s d m hm
    obtain ⟨h3, h4⟩ := ih (extractStep s d) h1
    exact ⟨h3, h4.trans h2⟩

theorem extractFrom_msg_none (ds : List SResp) (s : ExtractState)
    (hm : s.str_message = none) :
    (extractFrom s ds).str_message =
        (ds.find? (fun d => truthyStr d.hash)).bind SResp.hash ∧
      (extractFrom s ds).sample_result =
        s.sample_result ++ ((ds.find? (fun d => truthyStr d.hash)).elim []
          (fun d => [d])) := by
  induction ds generalizing s with
  | nil => simp [extractFrom, hm]
  | cons d ds ih =>
    simp only [extractFrom]
    obtain ⟨h1, h2⟩ := extractStep_msg_none s d hm
    cases ht : truthyStr d.hash with
    | true =>
      rw [ht] at h1 h2
      simp only [if_true] at h1 h2
      have hfind : (d :: ds).find? (fun x => truthyStr x.hash) = some d := by
        simp [List.find?, ht]
      have hhash : ∃ hs, d.hash = some hs ∧ hs ≠ "" := by
        cases hh : d.hash with
        | none => rw [hh] at ht; simp [truthyStr] at ht
        | some hs =>
          refine ⟨hs, rfl, ?_⟩
          rw [hh] at ht
          simpa [truthyStr] using ht
      obtain ⟨hs, hh, _⟩ := hhash
      rw [hh] at h1
      obtain ⟨h3, h4⟩ := extractFrom_msg_some ds (extractStep s d) hs h1
      rw [hfind]
      exact ⟨by rw [h3, Option.some_bind, hh], by rw [h4, h2]; simp⟩
    | false =>
      rw [ht] at h1 h2
      simp at h1 h2
      obtain ⟨h3, h4⟩ := ih (extractStep s d) h1
      have hfind : (d :: ds).find? (fun x => truthyStr x.hash) =
          ds.find? (fun x => truthyStr x.hash) := by
        simp [List.find?, ht]
      rw [hfind]
      refine ⟨h3, ?_⟩
      rw [h4, h2]

theorem extract_apns (ds : List SResp) :
    (extract ds).aggregated_public_nonces = ds.filterMap apnOf := by
  unfold extract
  rw [extractFrom_apns]
  simp

theorem extract_signs (ds : List SResp) :
    (extract ds).signs = ds.filterMap (fun d => d.signature_data) := by
  unfold extract
  rw [extractFrom_signs]
  simp

theorem extract_msg (ds : List SResp) :
    (extract ds).str_message =
      (ds.find? (fun d => truthyStr d.hash)).bind SResp.hash := by
  unfold extract
  exact (extractFrom_msg_none ds _ rfl).1

theorem extract_sample (ds : List SResp) :
    (extract ds).sample_result =
      (ds.find? (fun d => truthyStr d.hash)).elim [] (fun d => [d]) := by
  unfold extract
  have := (extractFrom_msg_none ds
    { sample_result := [], signs := [],
      aggregated_public_nonces := [], str_message := none } rfl).2
  simpa using this

/-! ### Characterization of the flagging and self-report loops -/

theorem reportOf_shape {d : SResp} {n : Nat} (h : reportOf d = some n) :
    ∃ sd, d.signature_data = some sd ∧ sd.aggregated_public_nonce = some n := by
  unfold reportOf at h
  cases hsd : d.signature_data with
  | none => rw [hsd] at h; simp at h
  | some sd =>
    rw [hsd] at h
    simp only [Option.some_bind] at h
    exact ⟨sd, rfl, h⟩

theorem flagLoop_ok (code : Nat) (l : List (Nat × SResp))
    (h : ∀ p ∈ l, ∃ sd n, p.2.signature_data = some sd ∧
      sd.aggregated_public_nonce = some n) :
    flagLoop code l = .ok
      (l.map (fun p => if reportOf p.2 = some code then p else (p.1, setMal p.2)),
       l.any (fun p => reportOf p.2 ≠ some code)) := by
  induction l with
  | nil => simp [flagLoop]
  | cons p l ih =>
    obtain ⟨sd, n, hsd, hn⟩ := h p (by simp)
    have ih' := ih (fun q hq => h q (by simp [hq]))
    obtain ⟨k, d⟩ := p
    simp only at hsd hn
    by_cases hc : n = code
    · subst hc
      simp [flagLoop, hsd, hn, ih', reportOf]
    · simp [flagLoop, hsd, hn, ih', reportOf, hc]

theorem statusScan_ok (l : List SResp) (h : ∀ d ∈ l, d.status.isSome) :
    statusScan l = .ok (l.any (fun d => d.status == some "MALICIOUS")) := by
  induction l with
  | nil => simp [statusScan]
  | cons d l ih =>
    obtain ⟨s, hs⟩ := Option.isSome_iff_exists.mp (h d (by simp))
    have ih' := ih (fun q hq => h q (by simp [hq]))
    by_cases hm : s = "MALICIOUS"
    · subst hm
      simp [statusScan, hs]
    · simp [statusScan, hs, hm, ih']

theorem consistencyPhase_calls (crypto : Crypto) (msg : Option String)
    (nl pk : Nat) (sigs : List (Nat × SResp)) (apns : List Nat) :
    ∀ c ∈ (consistencyPhase crypto msg nl pk sigs apns).calls,
      c.isAggSigs = false ∧ c.isVerify = false := by
  intro c hc
  unfold consistencyPhase at hc
  split at hc <;> simp_all [CryptoCall.isAggSigs, CryptoCall.isVerify]

theorem consistencyPhase_consistent (crypto : Crypto) (msg : Option String)
    (nl pk : Nat) (sigs : List (Nat × SResp)) (apns : List Nat)
    (h : apns.dedup.length = 1) :
    consistencyPhase crypto msg nl pk sigs apns =
      { updated := .ok (sigs, false), calls := [] } := by
  unfold consistencyPhase
  rw [if_pos h]

/-! ### Claim theorems -/

/-- C1: the transport's `except` clauses do convert failures that occur
while decoding the response body into the TIMEOUT / ERROR sentinel
values, but the `try` block encloses only `await response.json()`: an
exception raised while the request itself is performed — e.g. the
connection to an offline peer being refused or timing out at
`session.post` — propagates to the caller, so `post_request` does not
return a value for every failure as the claim states. -/
theorem post_request_sentinels_but_raises_on_connect :
    post_request (fun _ _ _ => .decodeTimeout) "http://node1:8001/v1/sign" 0 10
        = .ok timeoutSentinel ∧
    post_request (fun _ _ _ => .decodeError "ContentTypeError" "unexpected mimetype")
        "http://node1:8001/v1/sign" 0 10
        = .ok (errorSentinel "ContentTypeError" "unexpected mimetype") ∧
    post_request (fun _ _ _ => .requestRaise "TimeoutError" "connect timeout")
        "http://node1:8001/v1/sign" 0 10
        = .error (.raised "TimeoutError" "connect timeout") :=
  ⟨rfl, rfl, rfl⟩

/-- C2: a single authorized signer whose response is the transport's
TIMEOUT sentinel (so it has no `hash`, no `signature_data` and no
reported nonce) makes `set(aggregated_public_nonces)` empty, the
consistency branch runs, and its bracket access `data['signature_data']`
raises `KeyError` past the coordinator boundary — contradicting the
claim that every such input yields a structured result value. -/
theorem request_signature_keyerror_on_sentinel :
    (request_signature saFix netTimeout cryptoFix
        { public_key := 5, party := [1] } 0 0 [1] "rid").result
      = .error (.keyError "signature_data") := rfl

/-- C3: when `sign_party` is not a subset of `dkg_key.party`,
`request_signature` returns the dict `result FAILED, signatures None`
and issues no directory lookup, no transport call and no crypto call. -/
theorem guard_unauthorized_fast_fail (sa : SA) (net : Net) (crypto : Crypto)
    (dkg_key : DKGKey) (nonces_list sa_data : Nat) (sign_party : List Nat)
    (request_id : String)
    (h : sign_party.all (fun x => dkg_key.party.contains x) = false) :
    request_signature sa net crypto dkg_key nonces_list sa_data sign_party
        request_id =
      { result := .ok .failedNone, lookups := [], posts := [],
        cryptoCalls := [] } := by
  unfold request_signature
  rw [if_pos h]

/-- Witness for C3 at a concrete input: `sign_party = [2]` is not a
subset of `party = [1]`. -/
theorem guard_unauthorized_fast_fail_witness :
    (([2] : List Nat).all (fun x => ([1] : List Nat).contains x) = false) ∧
    request_signature saFix netTimeout cryptoFix
        { public_key := 5, party := [1] } 0 0 [2] "rid" =
      { result := .ok .failedNone, lookups := [], posts := [],
        cryptoCalls := [] } :=
  ⟨by decide,
   guard_unauthorized_fast_fail saFix netTimeout cryptoFix
     { public_key := 5, party := [1] } 0 0 [2] "rid" (by decide)⟩

/-- C4: for every requested party (repeated ids included),
`request_nonces` returns a mapping whose keys are exactly the party's
ids — each id exactly once (keys are duplicate-free and an id is a key
iff it is in the party) — in the party's own iteration order (the key
sequence is the subsequence of first occurrences), and it issues exactly
one nonce-generation POST per party member, to that member's resolved
url with the shared body. -/
theorem request_nonces_one_entry_per_member (sa : SA) (net : Net)
    (party : List Nat) (number_of_nonces : Nat) :
    (request_nonces sa net party number_of_nonces).nonces_response.map
        Prod.fst = pyKeys party ∧
    ((request_nonces sa net party number_of_nonces).nonces_response.map
        Prod.fst).Nodup ∧
    (∀ i, i ∈ (request_nonces sa net party
        number_of_nonces).nonces_response.map Prod.fst ↔ i ∈ party) ∧
    List.Sublist ((request_nonces sa net
        party number_of_nonces).nonces_response.map Prod.fst) party ∧
    (request_nonces sa net party number_of_nonces).posts =
        party.map (fun i =>
          (urlOf sa "/v1/generate-nonces" i, number_of_nonces)) := by
  have hkeys : (request_nonces sa net party
      number_of_nonces).nonces_response.map Prod.fst = pyKeys party := by
    simp only [request_nonces]
    exact dictZip_keys party (party.map net.nonce_response) (by simp)
  refine ⟨hkeys, ?_, ?_, ?_, ?_⟩
  · rw [hkeys]
    exact pyKeys_nodup party
  · intro i
    rw [hkeys]
    exact pyKeys_mem party i
  · rw [hkeys]
    exact pyKeys_sublist party
  · simp only [request_nonces, List.map_map]
    rfl

/-- Witness for C4 at the concrete party `[3, 1, 3]` (with a repeated
id): the keys are `[3, 1]` and two POSTs are issued. -/
theorem request_nonces_one_entry_per_member_witness :
    (request_nonces saFix netTimeout [3, 1, 3] 10).nonces_response.map
        Prod.fst = [3, 1] ∧
    (request_nonces saFix netTimeout [3, 1, 3] 10).posts.length = 3 :=
  ⟨((request_nonces_one_entry_per_member saFix netTimeout
      [3, 1, 3] 10).1).trans rfl,
   by rw [(request_nonces_one_entry_per_member saFix netTimeout
      [3, 1, 3] 10).2.2.2.2]; rfl⟩

/-- C7: past the guard, when the collected nonces agree (one unique
value) and the self-report scan finds no malicious status, the result is
exactly the aggregate produced by `aggregate_signatures` over the
canonical digest, the collected shares and the agreed nonce: on
verification success it is SUCCESSFUL carrying the hex-encoded message
hash, the representative sample shares and this call's request_id; on
verification failure it is the FAILED aggregate, retained in the
output. -/
theorem consistent_ceremony_verification (sa : SA) (net : Net)
    (crypto : Crypto) (dkg_key : DKGKey) (nl sad : Nat) (sp : List Nat)
    (u : String)
    (hsub : sp.all (fun x => dkg_key.party.contains x) = true)
    (hded : (extract ((signaturesOf net sp).map
        Prod.snd)).aggregated_public_nonces.dedup.length = 1)
    (hscan : statusScan ((signaturesOf net sp).map Prod.snd) = .ok false) :
    (request_signature sa net crypto dkg_key nl sad sp u).result =
      (let ex := extract ((signaturesOf net sp).map Prod.snd)
       let agg := crypto.aggregate_signatures ex.str_message ex.signs
         (crypto.code_to_pub ex.aggregated_public_nonces.headI)
         dkg_key.public_key
       if crypto.verify_group_signature agg then
         .ok (.success (bytesHex agg.message_hash) agg.sig ex.sample_result u)
       else .ok (.failedAgg agg)) := by
  have hne := dedup_one_ne_nil hded
  obtain ⟨a, t, hat⟩ := List.exists_cons_of_ne_nil hne
  simp only [request_signature, hsub, Bool.true_eq_false, if_false]
  rw [consistencyPhase_consistent crypto _ nl dkg_key.public_key _ _ hded]
  simp only [hscan, hat, Bool.or_self, Bool.false_eq_true, if_false,
    List.headI]
  split <;> rfl

/-- Witness for C7: one authorized signer reporting nonce 5 with a valid
share; `cryptoFix` verifies the aggregate, so the result is SUCCESSFUL
with hex hash "ab" and the call's request_id. -/
theorem consistent_ceremony_verification_witness :
    (request_signature saFix
        { sign_response := fun _ => okResp 5, nonce_response := fun _ => timeoutSentinel }
        cryptoFix { public_key := 5, party := [1] } 0 0 [1] "rid").result =
      .ok (.success "ab" 3 [okResp 5] "rid") :=
  (consistent_ceremony_verification saFix
    { sign_response := fun _ => okResp 5, nonce_response := fun _ => timeoutSentinel }
    cryptoFix { public_key := 5, party := [1] } 0 0 [1] "rid"
    (by decide) (by decide) rfl).trans rfl

/-- C10: past the guard, when the collected non-empty nonce values have
exactly one unique value, the consistency branch is skipped: the crypto
provider's `aggregate_nonce` recomputation is never invoked, the
signatures mapping passes through with every status unchanged, and in
particular a FAILED result with per-peer data returns exactly the
original mapping. -/
theorem agreed_nonce_skips_consistency_check (sa : SA) (net : Net)
    (crypto : Crypto) (dkg_key : DKGKey) (nl sad : Nat) (sp : List Nat)
    (u : String)
    (hsub : sp.all (fun x => dkg_key.party.contains x) = true)
    (hded : (extract ((signaturesOf net sp).map
        Prod.snd)).aggregated_public_nonces.dedup.length = 1) :
    consistencyPhase crypto
        (extract ((signaturesOf net sp).map Prod.snd)).str_message nl
        dkg_key.public_key (signaturesOf net sp)
        (extract ((signaturesOf net sp).map Prod.snd)).aggregated_public_nonces
      = { updated := .ok (signaturesOf net sp, false), calls := [] } ∧
    (∀ c ∈ (request_signature sa net crypto dkg_key nl sad sp u).cryptoCalls,
      c.isAggNonce = false) ∧
    (∀ m, (request_signature sa net crypto dkg_key nl sad sp u).result =
        .ok (.failedWith m) → m = signaturesOf net sp) := by
  have hcp := consistencyPhase_consistent crypto
    (extract ((signaturesOf net sp).map Prod.snd)).str_message nl
    dkg_key.public_key (signaturesOf net sp)
    (extract ((signaturesOf net sp).map Prod.snd)).aggregated_public_nonces hded
  have hne := dedup_one_ne_nil hded
  obtain ⟨a, t, hat⟩ := List.exists_cons_of_ne_nil hne
  refine ⟨hcp, ?_, ?_⟩
  · simp only [request_signature, hsub, Bool.true_eq_false, if_false, hcp]
    cases hss : statusScan ((signaturesOf net sp).map Prod.snd) with
    | error e => simp
    | ok b =>
      cases b with
      | true => simp
      | false =>
        simp only [hat, Bool.or_self, Bool.false_eq_true, if_false]
        split <;> simp [CryptoCall.isAggNonce]
  · simp only [request_signature, hsub, Bool.true_eq_false, if_false, hcp]
    cases hss : statusScan ((signaturesOf net sp).map Prod.snd) with
    | error e => simp
    | ok b =>
      cases b with
      | true => simp
      | false =>
        simp only [hat, Bool.or_self, Bool.false_eq_true, if_false]
        split <;> simp

/-- Witness for C10: two agreeing signers; the consistency phase passes
the mapping through unchanged, issuing no crypto call. -/
theorem agreed_nonce_skips_consistency_check_witness :
    consistencyPhase cryptoFix
        (extract ((signaturesOf netAgree [1, 2]).map Prod.snd)).str_message
        0 5 (signaturesOf netAgree [1, 2])
        (extract ((signaturesOf netAgree [1, 2]).map
          Prod.snd)).aggregated_public_nonces
      = { updated := .ok (signaturesOf netAgree [1, 2], false),
          calls := [] } :=
  (agreed_nonce_skips_consistency_check saFix netAgree cryptoFix
    { public_key := 5, party := [1, 2] } 0 0 [1, 2] "rid"
    (by decide) (by decide)).1

/-- C6: past the guard, whenever the consistency phase completes and at
least one entry of the (possibly mutated) signatures mapping carries
status MALICIOUS — self-reported or set by the coordinator — and every
entry has a status field (so the self-report loop can run), the result
is exactly `result FAILED` carrying that full per-peer mapping, and
neither `aggregate_signatures` nor `verify_group_signature` is ever
invoked. -/
theorem malicious_peer_forces_failed (sa : SA) (net : Net) (crypto : Crypto)
    (dkg_key : DKGKey) (nl sad : Nat) (sp : List Nat) (u : String)
    (sigs2 : List (Nat × SResp)) (flagged : Bool) (calls : List CryptoCall)
    (hsub : sp.all (fun x => dkg_key.party.contains x) = true)
    (hc : consistencyPhase crypto
        (extract ((signaturesOf net sp).map Prod.snd)).str_message nl
        dkg_key.public_key (signaturesOf net sp)
        (extract ((signaturesOf net sp).map Prod.snd)).aggregated_public_nonces
      = { updated := .ok (sigs2, flagged), calls := calls })
    (hstat : ∀ p ∈ sigs2, p.2.status.isSome)
    (hmal : ∃ p ∈ sigs2, p.2.status = some "MALICIOUS") :
    (request_signature sa net crypto dkg_key nl sad sp u).result =
        .ok (.failedWith sigs2) ∧
    ∀ c ∈ (request_signature sa net crypto dkg_key nl sad sp u).cryptoCalls,
      c.isAggSigs = false ∧ c.isVerify = false := by
  have hstat2 : ∀ d ∈ sigs2.map Prod.snd, d.status.isSome := by
    intro d hd
    obtain ⟨p, hp, rfl⟩ := List.mem_map.mp hd
    exact hstat p hp
  have hscan := statusScan_ok (sigs2.map Prod.snd) hstat2
  have hany : (sigs2.map Prod.snd).any
      (fun d => d.status == some "MALICIOUS") = true := by
    obtain ⟨p, hp, hm⟩ := hmal
    refine List.any_eq_true.mpr ⟨p.2, List.mem_map.mpr ⟨p, hp, rfl⟩, ?_⟩
    simp [hm]
  rw [hany] at hscan
  have hcalls : ∀ c ∈ calls, c.isAggSigs = false ∧ c.isVerify = false := by
    have h0 := consistencyPhase_calls crypto
      (extract ((signaturesOf net sp).map Prod.snd)).str_message nl
      dkg_key.public_key (signaturesOf net sp)
      (extract ((signaturesOf net sp).map Prod.snd)).aggregated_public_nonces
    rw [hc] at h0
    exact h0
  refine ⟨?_, ?_⟩
  · simp only [request_signature, hsub, Bool.true_eq_false, if_false, hc,
      hscan, Bool.or_true, if_true]
  · simp only [request_signature, hsub, Bool.true_eq_false, if_false, hc,
      hscan, Bool.or_true, if_true]
    exact hcalls

/-- Witness for C6: with agreeing nonces and peer 2 self-reporting
MALICIOUS, the result is FAILED with the full mapping. -/
theorem malicious_peer_forces_failed_witness :
    (request_signature saFix netSelfMal cryptoFix
        { public_key := 5, party := [1, 2] } 0 0 [1, 2] "rid").result =
      .ok (.failedWith [(1, okResp 7), (2, malResp 7)]) :=
  (malicious_peer_forces_failed saFix netSelfMal cryptoFix
    { public_key := 5, party := [1, 2] } 0 0 [1, 2] "rid"
    [(1, okResp 7), (2, malResp 7)] false [] (by decide) rfl
    (by decide) (by decide)).1

theorem zip_map_eq_map {α : Type} (ks : List Nat) (f : Nat → α) :
    ks.zip (ks.map f) = ks.map (fun i => (i, f i)) := by
  induction ks with
  | nil => simp
  | cons k ks ih => simp [ih]

/-- C8: for a duplicate-free signing party the signatures mapping's
values are scanned in exactly `sign_party` order; the canonical digest
`str_message` is the `hash` of the first response carrying a non-empty
hash; exactly that response is recorded as the (singleton) representative
sample; and once the digest is set, no later response replaces it. -/
theorem first_hash_is_canonical_digest (net : Net) (sp : List Nat)
    (hn : sp.Nodup) (ds : List SResp) (s : ExtractState) (m : String) :
    ((signaturesOf net sp).map Prod.snd = sp.map net.sign_response) ∧
    (extract ds).str_message =
        (ds.find? (fun d => truthyStr d.hash)).bind SResp.hash ∧
    (extract ds).sample_result =
        (ds.find? (fun d => truthyStr d.hash)).elim [] (fun d => [d]) ∧
    (s.str_message = some m → (extractFrom s ds).str_message = some m) := by
  refine ⟨?_, extract_msg ds, extract_sample ds,
    fun hm => (extractFrom_msg_some ds s m hm).1⟩
  unfold signaturesOf
  rw [dictZip_nodup _ _ hn]
  exact zip_map_snd sp net.sign_response

/-- Witness for C8: the sentinel (no hash) is skipped and the first
response with a non-empty hash supplies the digest and the sample. -/
theorem first_hash_is_canonical_digest_witness :
    (([1] : List Nat).Nodup) ∧
    (extract [timeoutSentinel, okResp 5, okResp 7]).str_message = some "aa" ∧
    (extract [timeoutSentinel, okResp 5, okResp 7]).sample_result = [okResp 5] :=
  ⟨by decide,
   ((first_hash_is_canonical_digest netTimeout [1] (by decide)
      [timeoutSentinel, okResp 5, okResp 7]
      { sample_result := [], signs := [], aggregated_public_nonces := [],
        str_message := none } "x").2.1).trans rfl,
   ((first_hash_is_canonical_digest netTimeout [1] (by decide)
      [timeoutSentinel, okResp 5, okResp 7]
      { sample_result := [], signs := [], aggregated_public_nonces := [],
        str_message := none } "x").2.2.1).trans rfl⟩

/-- C9: past the guard the call sends one POST per signer, all carrying
the identical payload with this call's request_id verbatim; a SUCCESSFUL
result carries that same request_id verbatim; and two calls given
distinct request_id draws (the freshness of `str(uuid.uuid4())` across
calls is a property of the external generator, taken as the hypothesis
`u1 ≠ u2`) send payloads whose request_id values differ. -/
theorem request_id_fresh_and_verbatim (sa : SA) (net : Net)
    (crypto : Crypto) (dkg_key : DKGKey) (nl sad : Nat) (sp : List Nat)
    (u1 u2 : String)
    (hsub : sp.all (fun x => dkg_key.party.contains x) = true)
    (hu : u1 ≠ u2) :
    (request_signature sa net crypto dkg_key nl sad sp u1).posts =
        sp.map (fun i => (urlOf sa "/v1/sign" i,
          { request_id := u1, dkg_public_key := dkg_key.public_key,
            nonces_list := nl, data := sad })) ∧
    (∀ mh sg sd rid,
      (request_signature sa net crypto dkg_key nl sad sp u1).result =
        .ok (.success mh sg sd rid) → rid = u1) ∧
    (∀ p ∈ (request_signature sa net crypto dkg_key nl sad sp u1).posts,
     ∀ q ∈ (request_signature sa net crypto dkg_key nl sad sp u2).posts,
      p.2.request_id ≠ q.2.request_id) := by
  have hposts : ∀ u : String,
      (request_signature sa net crypto dkg_key nl sad sp u).posts =
        sp.map (fun i => (urlOf sa "/v1/sign" i,
          { request_id := u, dkg_public_key := dkg_key.public_key,
            nonces_list := nl, data := sad })) := by
    intro u
    simp only [request_signature, hsub, Bool.true_eq_false, if_false]
    (repeat' split) <;> simp [List.map_map, Function.comp, urlOf]
  have hrid : ∀ mh sg sd rid,
      (request_signature sa net crypto dkg_key nl sad sp u1).result =
        .ok (.success mh sg sd rid) → rid = u1 := by
    intro mh sg sd rid h
    simp only [request_signature, hsub, Bool.true_eq_false, if_false] at h
    (repeat' split at h) <;> simp_all
  have hmem : ∀ u : String,
      ∀ p ∈ (request_signature sa net crypto dkg_key nl sad sp u).posts,
        p.2.request_id = u := by
    intro u p hp
    rw [hposts u] at hp
    obtain ⟨i, hi, rfl⟩ := List.mem_map.mp hp
    rfl
  refine ⟨hposts u1, hrid, fun p hp q hq => ?_⟩
  rw [hmem u1 p hp, hmem u2 q hq]
  exact hu

/-- Witness for C9 at a concrete input: a single signer, request_id
draws "a" and "b". -/
theorem request_id_fresh_and_verbatim_witness :
    (request_signature saFix netAgree cryptoFix
        { public_key := 5, party := [1] } 0 0 [1] "a").posts =
      [("http://node1:8001/v1/sign",
        { request_id := "a", dkg_public_key := 5, nonces_list := 0,
          data := 0 })] :=
  ((request_id_fresh_and_verbatim saFix netAgree cryptoFix
    { public_key := 5, party := [1] } 0 0 [1] "a" "b"
    (by decide) (by decide)).1).trans rfl

/-- C5 counterexample: with a single authorized signer whose reported
aggregated_public_nonce (5) differs from the value the crypto provider
would recompute (7) — "all other signers report the recomputed value"
holding vacuously — the claim as stated demands that this signer be
flagged MALICIOUS and the result be FAILED.  The code instead sees a
single unique reported value, skips the consistency check entirely, and
returns a SUCCESSFUL result with no signer flagged. -/
theorem single_forged_signer_not_flagged :
    reportOf (netForged.sign_response 1) = some 5 ∧
    cryptoFix.pub_to_code (cryptoFix.aggregate_nonce
      (extract ((signaturesOf netForged [1]).map Prod.snd)).str_message 0 5)
      = 7 ∧
    (request_signature saFix netForged cryptoFix
        { public_key := 5, party := [1] } 0 0 [1] "rid").result =
      .ok (.success "ab" 3 [okResp 5] "rid") :=
  ⟨rfl, rfl, rfl⟩

/-- C5 (amended): if the duplicate-free signing party has at least one
member besides the forger, every response carries a status field, each
signer reports a non-empty aggregated_public_nonce, exactly one signer
`j` reports a value `f` different from the recomputed value `R` and
every other signer reports exactly `R` (non-empty), then exactly `j`'s
status is set to MALICIOUS — every other response passes through with
its status unchanged — and the result is FAILED with the full per-peer
mapping. -/
theorem one_forged_among_agreeing_flagged (sa : SA) (net : Net)
    (crypto : Crypto) (dkg_key : DKGKey) (nl sad : Nat) (sp : List Nat)
    (u : String) (j R f : Nat)
    (hn : sp.Nodup)
    (hsub : sp.all (fun x => dkg_key.party.contains x) = true)
    (hj : j ∈ sp)
    (hR : R = crypto.pub_to_code (crypto.aggregate_nonce
      (extract (sp.map net.sign_response)).str_message nl
      dkg_key.public_key))
    (hfj : reportOf (net.sign_response j) = some f)
    (hf0 : f ≠ 0) (hfR : f ≠ R) (hR0 : R ≠ 0)
    (hothers : ∀ i ∈ sp, i ≠ j → reportOf (net.sign_response i) = some R)
    (hstat : ∀ i ∈ sp, (net.sign_response i).status.isSome)
    (hother : ∃ i ∈ sp, i ≠ j) :
    (request_signature sa net crypto dkg_key nl sad sp u).result =
      .ok (.failedWith (sp.map (fun i =>
        (i, if i = j then setMal (net.sign_response i)
            else net.sign_response i)))) := by
  have hzip : signaturesOf net sp = sp.zip (sp.map net.sign_response) := by
    unfold signaturesOf
    exact dictZip_nodup _ _ hn
  have hvals : (signaturesOf net sp).map Prod.snd = sp.map net.sign_response := by
    rw [hzip]
    exact zip_map_snd sp net.sign_response
  have hapns : (extract ((signaturesOf net sp).map
      Prod.snd)).aggregated_public_nonces =
      (sp.map net.sign_response).filterMap apnOf := by
    rw [hvals, extract_apns]
  have hfmem : f ∈ (sp.map net.sign_response).filterMap apnOf :=
    List.mem_filterMap.mpr ⟨net.sign_response j,
      List.mem_map.mpr ⟨j, hj, rfl⟩, by simp [apnOf, hfj, hf0]⟩
  obtain ⟨i0, hi0, hi0j⟩ := hother
  have hRmem : R ∈ (sp.map net.sign_response).filterMap apnOf :=
    List.mem_filterMap.mpr ⟨net.sign_response i0,
      List.mem_map.mpr ⟨i0, hi0, rfl⟩,
      by simp [apnOf, hothers i0 hi0 hi0j, hR0]⟩
  have hd1 : ¬ (extract ((signaturesOf net sp).map
      Prod.snd)).aggregated_public_nonces.dedup.length = 1 := by
    rw [hapns]
    exact dedup_length_ne_one hfmem hRmem hfR
  have hcode : crypto.pub_to_code (crypto.aggregate_nonce
      (extract ((signaturesOf net sp).map Prod.snd)).str_message nl
      dkg_key.public_key) = R := by
    rw [hvals]
    exact hR.symm
  have hshape : ∀ p ∈ signaturesOf net sp, ∃ sd n,
      p.2.signature_data = some sd ∧ sd.aggregated_public_nonce = some n := by
    intro p hp
    rw [hzip, zip_map_eq_map] at hp
    obtain ⟨i, hi, rfl⟩ := List.mem_map.mp hp
    by_cases hij : i = j
    · subst hij
      obtain ⟨sd, hsd, hnn⟩ := reportOf_shape hfj
      exact ⟨sd, f, hsd, hnn⟩
    · obtain ⟨sd, hsd, hnn⟩ := reportOf_shape (hothers i hi hij)
      exact ⟨sd, R, hsd, hnn⟩
  have hflag := flagLoop_ok R (signaturesOf net sp) hshape
  have hmapped : (signaturesOf net sp).map
      (fun p => if reportOf p.2 = some R then p else (p.1, setMal p.2)) =
      sp.map (fun i => (i, if i = j then setMal (net.sign_response i)
        else net.sign_response i)) := by
    rw [hzip, zip_map_eq_map, List.map_map]
    refine List.map_congr_left ?_
    intro i hi
    by_cases hij : i = j
    · subst hij
      simp [Function.comp, hfj, hfR]
    · simp [Function.comp, hothers i hi hij, hij]
  have hany : (signaturesOf net sp).any
      (fun p => reportOf p.2 ≠ some R) = true := by
    rw [hzip, zip_map_eq_map]
    refine List.any_eq_true.mpr ⟨(j, net.sign_response j),
      List.mem_map.mpr ⟨j, hj, rfl⟩, ?_⟩
    simp [hfj, hfR]
  rw [hmapped, hany] at hflag
  have hcp : consistencyPhase crypto
      (extract ((signaturesOf net sp).map Prod.snd)).str_message nl
      dkg_key.public_key (signaturesOf net sp)
      (extract ((signaturesOf net sp).map Prod.snd)).aggregated_public_nonces
      = { updated := .ok (sp.map (fun i =>
            (i, if i = j then setMal (net.sign_response i)
                else net.sign_response i)), true)
          calls := [.aggNonce
            (extract ((signaturesOf net sp).map Prod.snd)).str_message nl
            dkg_key.public_key] } := by
    unfold consistencyPhase
    rw [if_neg hd1]
    simp only [hcode, hflag]
  have hstat2 : ∀ d ∈ (sp.map (fun i =>
      (i, if i = j then setMal (net.sign_response i)
          else net.sign_response i))).map Prod.snd, d.status.isSome := by
    intro d hd
    rw [List.map_map] at hd
    obtain ⟨i, hi, rfl⟩ := List.mem_map.mp hd
    by_cases hij : i = j
    · subst hij
      simp [Function.comp, setMal]
    · simp only [Function.comp, if_neg hij]
      exact hstat i hi
  have hscan := statusScan_ok _ hstat2
  simp only [request_signature, hsub, Bool.true_eq_false, if_false, hcp,
    hscan, Bool.true_or, if_true]

/-- Witness for the amended C5: signers 1 and 2; signer 2 forges 5
against recomputed 7; only signer 2 is flagged, result FAILED. -/
theorem one_forged_among_agreeing_flagged_witness :
    (request_signature saFix netOneForged cryptoFix
        { public_key := 5, party := [1, 2] } 0 0 [1, 2] "rid").result =
      .ok (.failedWith [(1, okResp 7), (2, setMal (okResp 5))]) :=
  (one_forged_among_agreeing_flagged saFix netOneForged cryptoFix
    { public_key := 5, party := [1, 2] } 0 0 [1, 2] "rid" 2 7 5
    (by decide) (by decide) (by decide) rfl rfl
    (by decide) (by decide) (by decide) (by decide) (by decide)
    ⟨1, by decide, by decide⟩).trans rfl

end PyFrostSA
